import Mathlib

/-!
# Verification of the `BtcUpDownFHE` settlement contract

Shallow embedding of `src/hardhat/contracts/BtcUpDownFHE.sol` (a confidential
round-based BTC up/down prediction market) and proofs about it.

Modelling conventions:
* Machine integers are `Nat` with explicit `% 2^w` at the points where the
  source truncates (`uint64(...)` casts, FHE 64-bit accumulator wrap-around);
  Solidity 0.8 checked arithmetic that reverts on overflow/underflow is
  modelled by explicit error branches.
* Encrypted values (`euint32`, `euint64`) are represented by their plaintexts:
  the homomorphic operations of the source (`FHE.add`, `FHE.select`, `FHE.eq`)
  act on plaintexts and the embedding applies the same operations directly.
  `FHE.makePubliclyDecryptable` does not change a plaintext and is a no-op.
* The decryption oracle (`FHE.checkSignatures` plus `abi.decode`) is the trust
  boundary: callbacks take the decoded cleartext values as parameters, with the
  `abi.decode` range check modelled explicitly.  Claims about honest
  decryptions instantiate those parameters with the stored plaintexts.
* Reverts are `Except.error`; a revert returns no state, so "no state change
  on failure" holds by construction.
* Addresses are `Nat`.  `block.timestamp` is passed explicitly as `now`;
  the price feed answer is passed as a `Feed` value.
* Ether transfers are recorded on an append-only `transfers` ledger
  (`_safeTransfer` is assumed to succeed, i.e. recipients accept payment).
* The `participants` directory and the event log are not needed by any
  property proved here and are omitted.
-/

namespace UpDown

/-- `2^64`, the modulus of `uint64` / `euint64` arithmetic. -/
def U64 : Nat := 2 ^ 64

/-- `2^32`, the modulus of `uint32` / `euint32` arithmetic. -/
def U32 : Nat := 2 ^ 32

/-- `2^256`, the modulus of `uint256` arithmetic. -/
def U256 : Nat := 2 ^ 256

/-- `ROUND_SECONDS` constant of the contract. -/
def ROUND_SECONDS : Nat := 3600

/-- The `Result` enum of the contract. -/
inductive Result where
  | Unknown
  | Up
  | Down
  | Tie
deriving DecidableEq, Repr

/-- The `Round` struct.  `encTotalUp`/`encTotalDown` hold the plaintexts of the
confidential accumulators; the `totalUpHandle`/`totalDownHandle` fields of the
source are identified with those accumulators and not stored separately. -/
structure Round where
  initialized : Bool := false
  startTime : Nat := 0
  endTime : Nat := 0
  startPrice : Int := 0
  endPrice : Int := 0
  startPriceSet : Bool := false
  result : Result := Result.Unknown
  resultSet : Bool := false
  revealRequested : Bool := false
  totalsRevealed : Bool := false
  encTotalUp : Nat := 0
  encTotalDown : Nat := 0
  totalUp : Nat := 0
  totalDown : Nat := 0
  feeAmount : Nat := 0
deriving Repr

/-- The `Bet` struct (`exists` is renamed `betExists`; `direction` holds the
plaintext of the confidential direction). -/
structure Bet where
  betExists : Bool := false
  stake : Nat := 0
  direction : Nat := 0
  claimRequested : Bool := false
  claimed : Bool := false
deriving Repr

/-- The `UserStats` struct. -/
structure UserStats where
  totalBets : Nat := 0
  totalWins : Nat := 0
  totalWagered : Nat := 0
  totalPayout : Nat := 0
deriving Repr

/-- One reading of the Chainlink-style price feed: the `price` and `updatedAt`
components of `latestRoundData()`. -/
structure Feed where
  price : Int
  updatedAt : Nat
deriving Repr

/-- The contract storage.  `claimHandles` maps to `some p` where `p` is the
plaintext of the stored payout handle (`none` models the zero handle), and
`transfers` is the ledger of outgoing ether transfers. -/
structure State where
  owner : Nat
  feeRecipient : Nat
  feeBps : Nat
  stakeAmount : Nat
  feeAccrued : Nat
  maxPriceAge : Nat
  lastFinalizedRoundId : Nat
  lastFinalizedRoundSet : Bool
  lastRoundPrice : Int
  lastRoundPriceSet : Bool
  rounds : Nat → Round
  bets : Nat → Nat → Bet
  claimHandles : Nat → Nat → Option Nat
  userStats : Nat → UserStats
  transfers : List (Nat × Nat)

/-- Point update of a one-key mapping. -/
def upd1 {α : Type} (f : Nat → α) (i : Nat) (v : α) : Nat → α :=
  fun j => if j = i then v else f j

/-- Point update of a two-key mapping. -/
def upd2 {α : Type} (f : Nat → Nat → α) (i k : Nat) (v : α) : Nat → Nat → α :=
  fun j l => if j = i ∧ l = k then v else f j l

/-- `getCurrentRound()`: `block.timestamp / ROUND_SECONDS`. -/
def getCurrentRound (now : Nat) : Nat := now / ROUND_SECONDS

/-- `_initRound`: lazily initialize a round, deriving its window from the
round number and zeroing the confidential accumulators. -/
def initRound (s : State) (rid : Nat) : State :=
  let r := s.rounds rid
  if r.initialized then s
  else
    let r2 := { r with initialized := true, startTime := rid * ROUND_SECONDS,
                       endTime := rid * ROUND_SECONDS + ROUND_SECONDS,
                       encTotalUp := 0, encTotalDown := 0 }
    { s with rounds := upd1 s.rounds rid r2 }

/-- `_recordBet`: bump `totalBets` (uint64) and `totalWagered` (uint256) with
Solidity 0.8 checked arithmetic. -/
def recordBet (stats : UserStats) (stake : Nat) : Except String UserStats :=
  if stats.totalBets + 1 ≥ U64 then .error "arithmetic overflow"
  else if stats.totalWagered + stake ≥ U256 then .error "arithmetic overflow"
  else .ok { stats with totalBets := stats.totalBets + 1,
                        totalWagered := stats.totalWagered + stake }

/-- `_recordPayout`: add `payout` to `totalPayout` when positive and bump
`totalWins` when `isWin`, with checked arithmetic. -/
def recordPayout (stats : UserStats) (payout : Nat) (isWin : Bool) : Except String UserStats :=
  if payout > 0 ∧ stats.totalPayout + payout ≥ U256 then .error "arithmetic overflow"
  else if isWin ∧ stats.totalWins + 1 ≥ U64 then .error "arithmetic overflow"
  else .ok { stats with
      totalPayout := if payout > 0 then stats.totalPayout + payout else stats.totalPayout,
      totalWins := if isWin then stats.totalWins + 1 else stats.totalWins }

/-- `winningTotal` as computed by `resolveTotalsCallback` from the result and
the disclosed totals `u` (up) and `d` (down): zero for `Tie`/`Unknown`. -/
def winOf (res : Result) (u d : Nat) : Nat :=
  if res = Result.Up then u else if res = Result.Down then d else 0

/-- `losingTotal` as computed by `resolveTotalsCallback`. -/
def loseOf (res : Result) (u d : Nat) : Nat :=
  if res = Result.Up then d else if res = Result.Down then u else 0

/-- `uint64((uint256(losingTotal) * feeBps) / 10_000)`: the protocol fee. -/
def feeOf (feeBps losingTotal : Nat) : Nat :=
  losingTotal * feeBps / 10000 % U64

/-- `winningTotal` as computed by `requestClaim` from the stored disclosed
totals (the source's `r.result == Result.Up ? r.totalUp : r.totalDown`). -/
def claimWinTotal (r : Round) : Nat :=
  if r.result = Result.Up then r.totalUp else r.totalDown

/-- `losingTotal` as computed by `requestClaim`. -/
def claimLoseTotal (r : Round) : Nat :=
  if r.result = Result.Up then r.totalDown else r.totalUp

/-- `distributable = losingTotal > feeAmount ? losingTotal - feeAmount : 0`. -/
def claimDistributable (r : Round) : Nat :=
  if claimLoseTotal r > r.feeAmount then claimLoseTotal r - r.feeAmount else 0

/-- `share = uint64((uint256(stake) * distributable) / winningTotal)`. -/
def claimShare (r : Round) (stake : Nat) : Nat :=
  stake * claimDistributable r / claimWinTotal r % U64

/-- The Up/Down/Tie decision of `_finalizeRoundFromFeed`: strict comparison of
the end price against the start price. -/
def priceResult (startPrice endPrice : Int) : Result :=
  if endPrice > startPrice then Result.Up
  else if endPrice < startPrice then Result.Down
  else Result.Tie

/-- `placeBet(roundId, encryptedDirection, proof)` with `msg.value = msgValue`,
`msg.sender = sender`, `block.timestamp = now`.  `direction` is the plaintext
of the external encrypted direction (a `euint32`, hence reduced `% U32`).
The confidential accumulators receive the stake via the homomorphic
select-by-equality of the source, acting on plaintexts. -/
def placeBet (s : State) (now sender rid direction msgValue : Nat) : Except String State :=
  if rid ≠ getCurrentRound now + 1 then .error "Bet next round only" else
  if msgValue ≠ s.stakeAmount then .error "Incorrect stake" else
  let s1 := initRound s rid
  let r := s1.rounds rid
  if now ≥ r.startTime then .error "Round already started" else
  let b := s1.bets rid sender
  if b.betExists then .error "Already bet" else
  let dir := direction % U32
  let stakeEnc := msgValue % U64
  let upAdd := if dir = 1 then stakeEnc else 0
  let downAdd := if dir = 0 then stakeEnc else 0
  match recordBet (s1.userStats sender) stakeEnc with
  | .error e => .error e
  | .ok st =>
    let r2 := { r with encTotalUp := (r.encTotalUp + upAdd) % U64,
                       encTotalDown := (r.encTotalDown + downAdd) % U64 }
    let b2 := { b with betExists := true, stake := stakeEnc, direction := dir }
    .ok { s1 with rounds := upd1 s1.rounds rid r2,
                  bets := upd2 s1.bets rid sender b2,
                  userStats := upd1 s1.userStats sender st }

/-- `_finalizeRoundFromFeed`: price-based finalization of the just-ended
round, with sequencing, staleness and validity guards.  The `feed` argument is
the answer of `btcUsdFeed.latestRoundData()`. -/
def finalizeRoundFromFeed (s : State) (now : Nat) (feed : Feed) (rid : Nat) : Except String State :=
  if getCurrentRound now = 0 then .error "No completed round" else
  if rid + 1 ≠ getCurrentRound now then .error "Only latest round" else
  if s.lastFinalizedRoundSet ∧ rid ≠ s.lastFinalizedRoundId + 1 then .error "Out of order" else
  let s1 := initRound s rid
  let r := s1.rounds rid
  if now < r.endTime then .error "Round not ended" else
  if r.resultSet then .error "Already finalized" else
  if feed.price ≤ 0 then .error "Invalid price" else
  if now < feed.updatedAt then .error "arithmetic underflow" else
  if now - feed.updatedAt > s1.maxPriceAge then .error "Stale price" else
  let startPrice :=
    if r.startPriceSet then r.startPrice
    else if s1.lastRoundPriceSet then s1.lastRoundPrice else feed.price
  let result := priceResult startPrice feed.price
  let r2 := { r with startPrice := startPrice, startPriceSet := true,
                     endPrice := feed.price, result := result, resultSet := true }
  .ok { s1 with rounds := upd1 s1.rounds rid r2,
                lastRoundPrice := feed.price, lastRoundPriceSet := true,
                lastFinalizedRoundId := rid, lastFinalizedRoundSet := true }

/-- `finalizeRound(roundId)`: public wrapper of the internal finalization. -/
def finalizeRound (s : State) (now : Nat) (feed : Feed) (rid : Nat) : Except String State :=
  finalizeRoundFromFeed s now feed rid

/-- `performUpkeep(performData)`: `performData` is `some n` when the payload is
a 32-byte word decoding to `n`, otherwise `none`. -/
def performUpkeep (s : State) (now : Nat) (feed : Feed) (performData : Option Nat) :
    Except String State :=
  if getCurrentRound now = 0 then .error "No completed round" else
  let targetRound := getCurrentRound now - 1
  match performData with
  | some decoded =>
      if decoded = targetRound then finalizeRoundFromFeed s now feed decoded
      else finalizeRoundFromFeed s now feed targetRound
  | none => finalizeRoundFromFeed s now feed targetRound

/-- `requestRoundReveal(roundId)`: mark the round's totals publicly
decryptable (a plaintext no-op) and flip the `revealRequested` flag. -/
def requestRoundReveal (s : State) (rid : Nat) : Except String State :=
  let r := s.rounds rid
  if r.resultSet = false then .error "Result not set" else
  if r.revealRequested then .error "Reveal requested" else
  let r2 := { r with revealRequested := true }
  .ok { s with rounds := upd1 s.rounds rid r2 }

/-- The round record after `resolveTotalsCallback` accepts disclosed totals
(no fee case). -/
def setTotals (r : Round) (u d : Nat) : Round :=
  { r with totalUp := u, totalDown := d, totalsRevealed := true }

/-- The round record after `resolveTotalsCallback` accepts disclosed totals
and charges the fee. -/
def setTotalsFee (r : Round) (u d fee : Nat) : Round :=
  { r with totalUp := u, totalDown := d, totalsRevealed := true, feeAmount := fee }

/-- `resolveTotalsCallback(roundId, cleartexts, proof)`: `u`/`d` are the two
`uint64` values decoded from `cleartexts` (so range-checked against `U64`);
`FHE.checkSignatures` is the oracle trust boundary and is modelled by
quantifying over the disclosed values. -/
def resolveTotalsCallback (s : State) (rid u d : Nat) : Except String State :=
  let r := s.rounds rid
  if r.revealRequested = false then .error "Reveal not requested" else
  if r.totalsRevealed then .error "Totals already revealed" else
  if u ≥ U64 ∨ d ≥ U64 then .error "decode out of range" else
  if winOf r.result u d > 0 ∧ r.result ≠ Result.Tie then
    let fee := feeOf s.feeBps (loseOf r.result u d)
    if s.feeAccrued + fee ≥ U256 then .error "arithmetic overflow" else
    .ok { s with rounds := upd1 s.rounds rid (setTotalsFee r u d fee),
                 feeAccrued := s.feeAccrued + fee }
  else
    .ok { s with rounds := upd1 s.rounds rid (setTotals r u d) }

/-- `requestClaim(roundId)` by `sender`.  The Tie and zero-winning-total
branches settle immediately; otherwise the clear payout is computed and gated
confidentially on the bettor's direction, and the plaintext of the resulting
payout handle is stored in `claimHandles`. -/
def requestClaim (s : State) (sender rid : Nat) : Except String State :=
  let r := s.rounds rid
  if r.resultSet = false then .error "Result not set" else
  let b := s.bets rid sender
  if b.betExists = false then .error "No bet" else
  if b.claimed then .error "Already claimed" else
  if b.claimRequested then .error "Claim pending" else
  let stake := b.stake
  if r.result = Result.Tie then
    match recordPayout (s.userStats sender) stake false with
    | .error e => .error e
    | .ok st =>
      let b2 := { b with claimed := true }
      .ok { s with bets := upd2 s.bets rid sender b2,
                   transfers := s.transfers ++ [(sender, stake)],
                   userStats := upd1 s.userStats sender st }
  else
  if r.totalsRevealed = false then .error "Totals not revealed" else
  if claimWinTotal r = 0 then
    match recordPayout (s.userStats sender) stake false with
    | .error e => .error e
    | .ok st =>
      let b2 := { b with claimed := true }
      .ok { s with bets := upd2 s.bets rid sender b2,
                   transfers := s.transfers ++ [(sender, stake)],
                   userStats := upd1 s.userStats sender st }
  else
  let share := claimShare r stake
  if stake + share ≥ U64 then .error "arithmetic overflow" else
  let payout := stake + share
  let resultEnc : Nat := if r.result = Result.Up then 1 else 0
  let handlePlain : Nat := if b.direction = resultEnc then payout else 0
  let b2 := { b with claimRequested := true }
  .ok { s with claimHandles := upd2 s.claimHandles rid sender (some handlePlain),
               bets := upd2 s.bets rid sender b2 }

/-- `claimCallback(roundId, cleartexts, proof)` by `sender`: `payout` is the
`uint64` decoded from `cleartexts` (range-checked); marks the bet claimed,
transfers a positive payout and updates the stats. -/
def claimCallback (s : State) (sender rid payout : Nat) : Except String State :=
  let r := s.rounds rid
  if r.totalsRevealed = false then .error "Totals not revealed" else
  let b := s.bets rid sender
  if b.betExists = false then .error "No bet" else
  if b.claimRequested = false then .error "Claim not requested" else
  if b.claimed then .error "Already claimed" else
  match s.claimHandles rid sender with
  | none => .error "Missing handle"
  | some _ =>
    if payout ≥ U64 then .error "decode out of range" else
    match recordPayout (s.userStats sender) payout (decide (b.stake < payout)) with
    | .error e => .error e
    | .ok st =>
      let b2 := { b with claimed := true }
      .ok { s with bets := upd2 s.bets rid sender b2,
                   transfers := if payout > 0 then s.transfers ++ [(sender, payout)]
                                else s.transfers,
                   userStats := upd1 s.userStats sender st }

/-- `withdrawFees()` by `sender`. -/
def withdrawFees (s : State) (sender : Nat) : Except String State :=
  if sender ≠ s.feeRecipient then .error "Only fee recipient" else
  if s.feeAccrued = 0 then .error "No fees" else
  .ok { s with feeAccrued := 0, transfers := s.transfers ++ [(sender, s.feeAccrued)] }

/-- `setFeeRecipient(recipient)` by `sender` (owner-only). -/
def setFeeRecipient (s : State) (sender recipient : Nat) : Except String State :=
  if sender ≠ s.owner then .error "Only owner" else
  .ok { s with feeRecipient := recipient }

/-- `setFeeBps(newFeeBps)` by `sender` (owner-only, capped at 2000). -/
def setFeeBps (s : State) (sender newFeeBps : Nat) : Except String State :=
  if sender ≠ s.owner then .error "Only owner" else
  if newFeeBps > 2000 then .error "Fee too high" else
  .ok { s with feeBps := newFeeBps }

/-- `setMaxPriceAge(newMaxPriceAge)` by `sender` (owner-only). -/
def setMaxPriceAge (s : State) (sender newMaxPriceAge : Nat) : Except String State :=
  if sender ≠ s.owner then .error "Only owner" else
  .ok { s with maxPriceAge := newMaxPriceAge }

/-- `true` exactly when a call did not revert. -/
def succeeds {α : Type} (x : Except String α) : Bool :=
  match x with
  | .ok _ => true
  | .error _ => false

/-- One `placeBet` transaction of a betting trace: timestamp, sender,
plaintext direction and attached value. -/
structure BetCall where
  now : Nat
  sender : Nat
  direction : Nat
  value : Nat

/-- Run a list of `placeBet` transactions against round `rid`; reverted calls
leave the state unchanged.  Also returns the sum of the (uint64-truncated)
stakes of the calls that succeeded, i.e. of the bets actually placed. -/
def runBets (s : State) (rid : Nat) : List BetCall → State × Nat
  | [] => (s, 0)
  | c :: cs =>
    match placeBet s c.now c.sender rid c.direction c.value with
    | .ok s1 =>
      let rest := runBets s1 rid cs
      (rest.1, c.value % U64 + rest.2)
    | .error _ => runBets s rid cs

/-- One state-mutating transaction of the contract, any entry point, any
caller, any arguments, any block timestamp and feed answer. -/
inductive Step : State → State → Prop where
  | bet (s s' : State) (now sender rid dir v : Nat)
      (h : placeBet s now sender rid dir v = .ok s') : Step s s'
  | fin (s s' : State) (now : Nat) (feed : Feed) (rid : Nat)
      (h : finalizeRoundFromFeed s now feed rid = .ok s') : Step s s'
  | upk (s s' : State) (now : Nat) (feed : Feed) (pd : Option Nat)
      (h : performUpkeep s now feed pd = .ok s') : Step s s'
  | rev (s s' : State) (rid : Nat)
      (h : requestRoundReveal s rid = .ok s') : Step s s'
  | res (s s' : State) (rid u d : Nat)
      (h : resolveTotalsCallback s rid u d = .ok s') : Step s s'
  | claimReq (s s' : State) (sender rid : Nat)
      (h : requestClaim s sender rid = .ok s') : Step s s'
  | claimCb (s s' : State) (sender rid payout : Nat)
      (h : claimCallback s sender rid payout = .ok s') : Step s s'
  | wdr (s s' : State) (sender : Nat)
      (h : withdrawFees s sender = .ok s') : Step s s'
  | setFR (s s' : State) (sender recipient : Nat)
      (h : setFeeRecipient s sender recipient = .ok s') : Step s s'
  | setFB (s s' : State) (sender newFeeBps : Nat)
      (h : setFeeBps s sender newFeeBps = .ok s') : Step s s'
  | setMPA (s s' : State) (sender newMaxPriceAge : Nat)
      (h : setMaxPriceAge s sender newMaxPriceAge = .ok s') : Step s s'

/-- Any finite sequence of successful transactions. -/
def Steps : State → State → Prop := Relation.ReflTransGen Step

/-- The once-per-round / once-per-bet flags only ever go from `false` to
`true`: `revealRequested`, `totalsRevealed` per round; `betExists`,
`claimRequested`, `claimed` per bet. -/
def FlagsLe (s t : State) : Prop :=
  (∀ rid, (s.rounds rid).revealRequested = true → (t.rounds rid).revealRequested = true) ∧
  (∀ rid, (s.rounds rid).totalsRevealed = true → (t.rounds rid).totalsRevealed = true) ∧
  (∀ rid a, (s.bets rid a).betExists = true → (t.bets rid a).betExists = true) ∧
  (∀ rid a, (s.bets rid a).claimRequested = true → (t.bets rid a).claimRequested = true) ∧
  (∀ rid a, (s.bets rid a).claimed = true → (t.bets rid a).claimed = true)

/-! ## Concrete scenario states

A small deployment used to exercise the theorems on concrete inputs:
stake 10 wei, fee 200 bps (2%), max price age 100 s. -/

/-- Extract the state of a successful call (fallback for the error case). -/
def getOk (x : Except String State) (d : State) : State :=
  match x with
  | .ok s => s
  | .error _ => d

/-- Freshly deployed contract state. -/
def s0 : State :=
  { owner := 0, feeRecipient := 1, feeBps := 200, stakeAmount := 10, feeAccrued := 0,
    maxPriceAge := 100, lastFinalizedRoundId := 0, lastFinalizedRoundSet := false,
    lastRoundPrice := 0, lastRoundPriceSet := false,
    rounds := fun _ => {}, bets := fun _ _ => {}, claimHandles := fun _ _ => none,
    userStats := fun _ => {}, transfers := [] }

/-- Round 3 of `c1s`: finalized Up, totals disclosed as 30 (up) / 20 (down),
fee 2. -/
def c1round : Round :=
  { result := Result.Up, resultSet := true, totalsRevealed := true, revealRequested := true,
    totalUp := 30, totalDown := 20, feeAmount := 2 }

/-- A state whose round 3 is `c1round` with a bet of stake 10 on Up by
address 8. -/
def c1s : State :=
  { s0 with rounds := upd1 s0.rounds 3 c1round,
            bets := upd2 s0.bets 3 8 { betExists := true, stake := 10, direction := 1 } }

/-- `c1s` after address 8 requests its claim. -/
def c1s1 : State := getOk (requestClaim c1s 8 3) c1s

/-- A state whose round 9 is finalized Up with reveal requested and fee rate
2000 bps; the oracle will disclose a one-sided round (all stake on Down). -/
def c2s : State :=
  { s0 with
    feeBps := 2000,
    rounds := upd1 s0.rounds 9 { result := Result.Up, resultSet := true, revealRequested := true } }

/-- `c2s` after totals 0 (up) / 10000 (down) are disclosed. -/
def c2s1 : State := getOk (resolveTotalsCallback c2s 9 0 10000) c2s

/-- `s0` with the prior round price carried at 50, so that finalizing at
price 100 yields `Up`. -/
def c4s : State := { s0 with lastRoundPrice := 50, lastRoundPriceSet := true }

/-- `c4s` after round 5 is finalized at price 100 (time 21600). -/
def c4s1 : State := getOk (finalizeRound c4s 21600 ⟨100, 21600⟩ 5) c4s

/-- A `placeBet` transaction whose encrypted direction decodes to 2: neither
0 (down) nor 1 (up). -/
def c5call : BetCall := { now := 14410, sender := 7, direction := 2, value := 10 }

/-- `s0` after the direction-2 bet is placed on round 5. -/
def c5s1 : State := (runBets s0 5 [c5call]).1

/-- `c5s1` after round 5 is finalized (price 100, a tie). -/
def c5s2 : State := getOk (finalizeRound c5s1 21600 ⟨100, 21600⟩ 5) c5s1

/-- `c5s2` after the round reveal is requested. -/
def c5s3 : State := getOk (requestRoundReveal c5s2 5) c5s2

/-- `c5s3` after the oracle honestly discloses the accumulator plaintexts. -/
def c5s4 : State :=
  getOk (resolveTotalsCallback c5s3 5 ((c5s3.rounds 5).encTotalUp)
    ((c5s3.rounds 5).encTotalDown)) c5s3

/-- An honest `placeBet` transaction (direction 1 = up, stake 10). -/
def c5wcall : BetCall := { now := 14410, sender := 7, direction := 1, value := 10 }

/-- `s0` after the honest bet is placed on round 5. -/
def c5ws1 : State := (runBets s0 5 [c5wcall]).1

/-- `c5ws1` after round 5 is finalized. -/
def c5ws2 : State := getOk (finalizeRound c5ws1 21600 ⟨100, 21600⟩ 5) c5ws1

/-- `c5ws2` after the round reveal is requested. -/
def c5ws3 : State := getOk (requestRoundReveal c5ws2 5) c5ws2

/-- `c5ws3` after the oracle honestly discloses the accumulator plaintexts. -/
def c5ws4 : State :=
  getOk (resolveTotalsCallback c5ws3 5 ((c5ws3.rounds 5).encTotalUp)
    ((c5ws3.rounds 5).encTotalDown)) c5ws3

/-- Round 4 of `c6s`: a finalized tie with reveal requested. -/
def c6tieRound : Round :=
  { result := Result.Tie, resultSet := true, revealRequested := true }

/-- Round 6 of `c6s`: finalized Up, totals disclosed as 0 (up) / 25 (down). -/
def c6zeroRound : Round :=
  { result := Result.Up, resultSet := true, revealRequested := true, totalsRevealed := true,
    totalUp := 0, totalDown := 25 }

/-- See `c6tieRound`/`c6zeroRound`; bets of stake 10 by addresses 8 and 9. -/
def c6s : State :=
  { s0 with
    rounds := upd1 (upd1 s0.rounds 4 c6tieRound) 6 c6zeroRound,
    bets := upd2 (upd2 s0.bets 4 8 { betExists := true, stake := 10, direction := 1 }) 6 9
      { betExists := true, stake := 10, direction := 0 } }

/-- `c6s` after address 8 claims on the tie round 4. -/
def c6s1 : State := getOk (requestClaim c6s 8 4) c6s

/-- `c6s` after address 9 claims on the zero-winning-total round 6. -/
def c6s2 : State := getOk (requestClaim c6s 9 6) c6s

/-- `c6s` after totals 5 (up) / 5 (down) are disclosed for the tie round 4. -/
def c6s3 : State := getOk (resolveTotalsCallback c6s 4 5 5) c6s

/-- The claim-requested bet of address 7 in `c7s`. -/
def c7bet : Bet :=
  { betExists := true, stake := 10, direction := 1, claimRequested := true }

/-- See `c7bet`: round 5 finalized Up, claim-requested bet by address 7 whose
payout handle decodes to 20. -/
def c7s : State :=
  { s0 with
    rounds := upd1 s0.rounds 5 { result := Result.Up, resultSet := true },
    bets := upd2 s0.bets 5 7 c7bet,
    claimHandles := upd2 s0.claimHandles 5 7 (some 20) }

/-- `c7s` after the round reveal is requested. -/
def c7s1 : State := getOk (requestRoundReveal c7s 5) c7s

/-- `c7s1` after totals 30 (up) / 40 (down) are disclosed. -/
def c7s2 : State := getOk (resolveTotalsCallback c7s1 5 30 40) c7s1

/-- `c7s2` after address 7's claim callback settles with payout 20. -/
def c7s3 : State := getOk (claimCallback c7s2 7 5 20) c7s2

/-- `s0` after address 7 places the honest bet on round 5. -/
def c9s1 : State := getOk (placeBet s0 14410 7 5 1 10) s0

/-! ## Basic lemmas -/

@[simp] theorem upd1_apply {α : Type} (f : Nat → α) (i : Nat) (v : α) (j : Nat) :
    upd1 f i v j = if j = i then v else f j := rfl

@[simp] theorem upd2_apply {α : Type} (f : Nat → Nat → α) (i k : Nat) (v : α) (j l : Nat) :
    upd2 f i k v j l = if j = i ∧ l = k then v else f j l := rfl

theorem flagsLe_refl (s : State) : FlagsLe s s :=
  ⟨fun _ h => h, fun _ h => h, fun _ _ h => h, fun _ _ h => h, fun _ _ h => h⟩

theorem flagsLe_trans {s t u : State} (h1 : FlagsLe s t) (h2 : FlagsLe t u) : FlagsLe s u :=
  ⟨fun r h => h2.1 r (h1.1 r h),
   fun r h => h2.2.1 r (h1.2.1 r h),
   fun r a h => h2.2.2.1 r a (h1.2.2.1 r a h),
   fun r a h => h2.2.2.2.1 r a (h1.2.2.2.1 r a h),
   fun r a h => h2.2.2.2.2 r a (h1.2.2.2.2 r a h)⟩

@[simp] theorem initRound_bets (s : State) (rid : Nat) : (initRound s rid).bets = s.bets := by
  simp only [initRound]; split <;> rfl

@[simp] theorem initRound_userStats (s : State) (rid : Nat) :
    (initRound s rid).userStats = s.userStats := by
  simp only [initRound]; split <;> rfl

@[simp] theorem initRound_claimHandles (s : State) (rid : Nat) :
    (initRound s rid).claimHandles = s.claimHandles := by
  simp only [initRound]; split <;> rfl

@[simp] theorem initRound_transfers (s : State) (rid : Nat) :
    (initRound s rid).transfers = s.transfers := by
  simp only [initRound]; split <;> rfl

@[simp] theorem initRound_stakeAmount (s : State) (rid : Nat) :
    (initRound s rid).stakeAmount = s.stakeAmount := by
  simp only [initRound]; split <;> rfl

@[simp] theorem initRound_maxPriceAge (s : State) (rid : Nat) :
    (initRound s rid).maxPriceAge = s.maxPriceAge := by
  simp only [initRound]; split <;> rfl

@[simp] theorem initRound_feeBps (s : State) (rid : Nat) :
    (initRound s rid).feeBps = s.feeBps := by
  simp only [initRound]; split <;> rfl

@[simp] theorem initRound_feeAccrued (s : State) (rid : Nat) :
    (initRound s rid).feeAccrued = s.feeAccrued := by
  simp only [initRound]; split <;> rfl

@[simp] theorem initRound_lastFinalizedRoundId (s : State) (rid : Nat) :
    (initRound s rid).lastFinalizedRoundId = s.lastFinalizedRoundId := by
  simp only [initRound]; split <;> rfl

@[simp] theorem initRound_lastFinalizedRoundSet (s : State) (rid : Nat) :
    (initRound s rid).lastFinalizedRoundSet = s.lastFinalizedRoundSet := by
  simp only [initRound]; split <;> rfl

@[simp] theorem initRound_lastRoundPrice (s : State) (rid : Nat) :
    (initRound s rid).lastRoundPrice = s.lastRoundPrice := by
  simp only [initRound]; split <;> rfl

@[simp] theorem initRound_lastRoundPriceSet (s : State) (rid : Nat) :
    (initRound s rid).lastRoundPriceSet = s.lastRoundPriceSet := by
  simp only [initRound]; split <;> rfl

@[simp] theorem initRound_revealRequested (s : State) (rid j : Nat) :
    ((initRound s rid).rounds j).revealRequested = (s.rounds j).revealRequested := by
  simp only [initRound]
  split
  · rfl
  · simp only [upd1_apply]
    split
    · rename_i h; subst h; rfl
    · rfl

@[simp] theorem initRound_totalsRevealed (s : State) (rid j : Nat) :
    ((initRound s rid).rounds j).totalsRevealed = (s.rounds j).totalsRevealed := by
  simp only [initRound]
  split
  · rfl
  · simp only [upd1_apply]
    split
    · rename_i h; subst h; rfl
    · rfl

@[simp] theorem initRound_resultSet (s : State) (rid j : Nat) :
    ((initRound s rid).rounds j).resultSet = (s.rounds j).resultSet := by
  simp only [initRound]
  split
  · rfl
  · simp only [upd1_apply]
    split
    · rename_i h; subst h; rfl
    · rfl

@[simp] theorem initRound_result (s : State) (rid j : Nat) :
    ((initRound s rid).rounds j).result = (s.rounds j).result := by
  simp only [initRound]
  split
  · rfl
  · simp only [upd1_apply]
    split
    · rename_i h; subst h; rfl
    · rfl

@[simp] theorem initRound_startPriceSet (s : State) (rid j : Nat) :
    ((initRound s rid).rounds j).startPriceSet = (s.rounds j).startPriceSet := by
  simp only [initRound]
  split
  · rfl
  · simp only [upd1_apply]
    split
    · rename_i h; subst h; rfl
    · rfl

@[simp] theorem initRound_startPrice (s : State) (rid j : Nat) :
    ((initRound s rid).rounds j).startPrice = (s.rounds j).startPrice := by
  simp only [initRound]
  split
  · rfl
  · simp only [upd1_apply]
    split
    · rename_i h; subst h; rfl
    · rfl

/-- Elimination for a successful `requestRoundReveal`: the guards held and the
resulting state only flips the `revealRequested` flag. -/
theorem requestRoundReveal_ok {s : State} {rid : Nat} {s' : State}
    (h : requestRoundReveal s rid = .ok s') :
    (s.rounds rid).resultSet = true ∧ (s.rounds rid).revealRequested = false ∧
    s' = { s with rounds := upd1 s.rounds rid ({ s.rounds rid with revealRequested := true }) } := by
  simp only [requestRoundReveal] at h
  split at h
  · exact Except.noConfusion h
  · split at h
    · exact Except.noConfusion h
    · rename_i h1 h2
      refine ⟨by simpa using h1, by simpa using h2, ?_⟩
      injection h with h
      exact h.symm

/-- Elimination for a successful `resolveTotalsCallback`: guards held, the
decoded totals are in `uint64` range, and the resulting state stores them,
charging a fee exactly when the winning side is non-empty and the result is
not a tie. -/
theorem resolveTotalsCallback_ok {s : State} {rid u d : Nat} {s' : State}
    (h : resolveTotalsCallback s rid u d = .ok s') :
    (s.rounds rid).revealRequested = true ∧ (s.rounds rid).totalsRevealed = false ∧
    u < U64 ∧ d < U64 ∧
    ((winOf (s.rounds rid).result u d > 0 ∧ (s.rounds rid).result ≠ Result.Tie) →
      s' = { s with
             rounds := upd1 s.rounds rid
               (setTotalsFee (s.rounds rid) u d (feeOf s.feeBps (loseOf (s.rounds rid).result u d))),
             feeAccrued := s.feeAccrued + feeOf s.feeBps (loseOf (s.rounds rid).result u d) }) ∧
    (¬(winOf (s.rounds rid).result u d > 0 ∧ (s.rounds rid).result ≠ Result.Tie) →
      s' = { s with rounds := upd1 s.rounds rid (setTotals (s.rounds rid) u d) }) := by
  simp only [resolveTotalsCallback] at h
  split at h
  · exact Except.noConfusion h
  split at h
  · exact Except.noConfusion h
  split at h
  · exact Except.noConfusion h
  rename_i h1 h2 h3
  obtain ⟨hu, hd⟩ : u < U64 ∧ d < U64 := by
    push_neg at h3
    exact h3
  split at h
  · split at h
    · exact Except.noConfusion h
    rename_i hc hov
    injection h with h
    exact ⟨by simpa using h1, by simpa using h2, hu, hd, fun _ => h.symm, fun hnc => absurd hc hnc⟩
  · rename_i hc
    injection h with h
    exact ⟨by simpa using h1, by simpa using h2, hu, hd, fun hcc => absurd hcc hc, fun _ => h.symm⟩

/-- Elimination for a successful `claimCallback`: all guards held, the decoded
payout is in `uint64` range, and the resulting state marks the bet claimed,
transfers a positive payout and updates the stats. -/
theorem claimCallback_ok {s : State} {sender rid payout : Nat} {s' : State}
    (h : claimCallback s sender rid payout = .ok s') :
    (s.rounds rid).totalsRevealed = true ∧
    (s.bets rid sender).betExists = true ∧
    (s.bets rid sender).claimRequested = true ∧
    (s.bets rid sender).claimed = false ∧
    (s.claimHandles rid sender).isSome = true ∧
    payout < U64 ∧
    ∃ st, recordPayout (s.userStats sender) payout (decide ((s.bets rid sender).stake < payout))
            = .ok st ∧
      s' = { s with bets := upd2 s.bets rid sender ({ s.bets rid sender with claimed := true }),
                    transfers := if payout > 0 then s.transfers ++ [(sender, payout)]
                                 else s.transfers,
                    userStats := upd1 s.userStats sender st } := by
  simp only [claimCallback] at h
  split at h
  · exact Except.noConfusion h
  rename_i h1
  split at h
  · exact Except.noConfusion h
  rename_i h2
  split at h
  · exact Except.noConfusion h
  rename_i h3
  split at h
  · exact Except.noConfusion h
  rename_i h4
  split at h
  · exact Except.noConfusion h
  rename_i hval hsm
  split at h
  · exact Except.noConfusion h
  rename_i hpv
  split at h
  · exact Except.noConfusion h
  rename_i st hst
  injection h with h
  refine ⟨by simpa using h1, by simpa using h2, by simpa using h3, by simpa using h4,
          by simp [hsm], by omega, st, hst, h.symm⟩

/-- Elimination for a successful `withdrawFees`. -/
theorem withdrawFees_ok {s : State} {sender : Nat} {s' : State}
    (h : withdrawFees s sender = .ok s') :
    sender = s.feeRecipient ∧ s.feeAccrued ≠ 0 ∧
    s' = { s with feeAccrued := 0, transfers := s.transfers ++ [(sender, s.feeAccrued)] } := by
  simp only [withdrawFees] at h
  split at h
  · exact Except.noConfusion h
  split at h
  · exact Except.noConfusion h
  rename_i h1 h2
  injection h with h
  exact ⟨by simpa using h1, h2, h.symm⟩

/-- Elimination for a successful `setFeeRecipient`. -/
theorem setFeeRecipient_ok {s : State} {sender recipient : Nat} {s' : State}
    (h : setFeeRecipient s sender recipient = .ok s') :
    sender = s.owner ∧ s' = { s with feeRecipient := recipient } := by
  simp only [setFeeRecipient] at h
  split at h
  · exact Except.noConfusion h
  rename_i h1
  injection h with h
  exact ⟨by simpa using h1, h.symm⟩

/-- Elimination for a successful `setFeeBps`. -/
theorem setFeeBps_ok {s : State} {sender newFeeBps : Nat} {s' : State}
    (h : setFeeBps s sender newFeeBps = .ok s') :
    sender = s.owner ∧ newFeeBps ≤ 2000 ∧ s' = { s with feeBps := newFeeBps } := by
  simp only [setFeeBps] at h
  split at h
  · exact Except.noConfusion h
  split at h
  · exact Except.noConfusion h
  rename_i h1 h2
  injection h with h
  exact ⟨by simpa using h1, by omega, h.symm⟩

/-- Elimination for a successful `setMaxPriceAge`. -/
theorem setMaxPriceAge_ok {s : State} {sender newMaxPriceAge : Nat} {s' : State}
    (h : setMaxPriceAge s sender newMaxPriceAge = .ok s') :
    sender = s.owner ∧ s' = { s with maxPriceAge := newMaxPriceAge } := by
  simp only [setMaxPriceAge] at h
  split at h
  · exact Except.noConfusion h
  rename_i h1
  injection h with h
  exact ⟨by simpa using h1, h.symm⟩

/-- `performUpkeep` always reduces to finalizing `getCurrentRound now - 1`. -/
theorem performUpkeep_ok {s : State} {now : Nat} {feed : Feed} {pd : Option Nat} {s' : State}
    (h : performUpkeep s now feed pd = .ok s') :
    finalizeRoundFromFeed s now feed (getCurrentRound now - 1) = .ok s' := by
  simp only [performUpkeep] at h
  split at h
  · exact Except.noConfusion h
  split at h
  · split at h
    · rename_i hdec
      rwa [hdec] at h
    · exact h
  · exact h

/-- Elimination for a successful `placeBet`: all guards held, the bet is
recorded, and the stake is added homomorphically to the accumulator selected
by the plaintext direction (neither accumulator when the direction is not
0 or 1). -/
theorem placeBet_ok {s : State} {now sender rid direction msgValue : Nat} {s' : State}
    (h : placeBet s now sender rid direction msgValue = .ok s') :
    rid = getCurrentRound now + 1 ∧
    msgValue = s.stakeAmount ∧
    now < ((initRound s rid).rounds rid).startTime ∧
    (s.bets rid sender).betExists = false ∧
    ∃ st, recordBet (s.userStats sender) (msgValue % U64) = .ok st ∧
      s' = { initRound s rid with
             rounds := upd1 (initRound s rid).rounds rid ({ (initRound s rid).rounds rid with encTotalUp := (((initRound s rid).rounds rid).encTotalUp + if direction % U32 = 1 then msgValue % U64 else 0) % U64, encTotalDown := (((initRound s rid).rounds rid).encTotalDown + if direction % U32 = 0 then msgValue % U64 else 0) % U64 }),
             bets := upd2 (initRound s rid).bets rid sender ({ (initRound s rid).bets rid sender with betExists := true, stake := msgValue % U64, direction := direction % U32 }),
             userStats := upd1 (initRound s rid).userStats sender st } := by
  simp only [placeBet] at h
  split at h
  · exact Except.noConfusion h
  rename_i h1
  split at h
  · exact Except.noConfusion h
  rename_i h2
  split at h
  · exact Except.noConfusion h
  rename_i h3
  split at h
  · exact Except.noConfusion h
  rename_i h4
  split at h
  · exact Except.noConfusion h
  rename_i st hst
  injection h with h
  refine ⟨by simpa using h1, by simpa using h2, by omega, by simpa using h4,
          st, by simpa using hst, h.symm⟩

/-- Elimination for a successful `_finalizeRoundFromFeed`: all guards held and
the result is assigned by `priceResult` from the carried start price. -/
theorem finalizeRoundFromFeed_ok {s : State} {now : Nat} {feed : Feed} {rid : Nat} {s' : State}
    (h : finalizeRoundFromFeed s now feed rid = .ok s') :
    getCurrentRound now ≠ 0 ∧
    rid + 1 = getCurrentRound now ∧
    (s.lastFinalizedRoundSet = true → rid = s.lastFinalizedRoundId + 1) ∧
    now ≥ ((initRound s rid).rounds rid).endTime ∧
    (s.rounds rid).resultSet = false ∧
    0 < feed.price ∧
    feed.updatedAt ≤ now ∧
    now - feed.updatedAt ≤ s.maxPriceAge ∧
    s' = { initRound s rid with
           rounds := upd1 (initRound s rid).rounds rid ({ (initRound s rid).rounds rid with startPrice := (if ((initRound s rid).rounds rid).startPriceSet then ((initRound s rid).rounds rid).startPrice else if (initRound s rid).lastRoundPriceSet then (initRound s rid).lastRoundPrice else feed.price), startPriceSet := true, endPrice := feed.price, result := priceResult (if ((initRound s rid).rounds rid).startPriceSet then ((initRound s rid).rounds rid).startPrice else if (initRound s rid).lastRoundPriceSet then (initRound s rid).lastRoundPrice else feed.price) feed.price, resultSet := true }),
           lastRoundPrice := feed.price, lastRoundPriceSet := true,
           lastFinalizedRoundId := rid, lastFinalizedRoundSet := true } := by
  simp only [finalizeRoundFromFeed] at h
  split at h
  · exact Except.noConfusion h
  rename_i h1
  split at h
  · exact Except.noConfusion h
  rename_i h2
  split at h
  · exact Except.noConfusion h
  rename_i h3
  split at h
  · exact Except.noConfusion h
  rename_i h4
  split at h
  · exact Except.noConfusion h
  rename_i h5
  split at h
  · exact Except.noConfusion h
  rename_i h6
  split at h
  · exact Except.noConfusion h
  rename_i h7
  split at h
  · exact Except.noConfusion h
  rename_i h8
  injection h with h
  refine ⟨h1, by simpa using h2, ?_, by omega, by simpa using h5, by omega, by omega, ?_, h.symm⟩
  · intro hset
    rcases Decidable.em (rid = s.lastFinalizedRoundId + 1) with he | hne
    · exact he
    · exact absurd ⟨hset, hne⟩ h3
  · have := initRound_maxPriceAge s rid
    omega

/-- Elimination for a successful `requestClaim`, split over the three source
branches (tie refund, zero-winning-total refund, confidential claim request). -/
theorem requestClaim_ok {s : State} {sender rid : Nat} {s' : State}
    (h : requestClaim s sender rid = .ok s') :
    (s.rounds rid).resultSet = true ∧
    (s.bets rid sender).betExists = true ∧
    (s.bets rid sender).claimed = false ∧
    (s.bets rid sender).claimRequested = false ∧
    ((s.rounds rid).result = Result.Tie →
      ∃ st, recordPayout (s.userStats sender) (s.bets rid sender).stake false = .ok st ∧
        s' = { s with bets := upd2 s.bets rid sender ({ s.bets rid sender with claimed := true }), transfers := s.transfers ++ [(sender, (s.bets rid sender).stake)], userStats := upd1 s.userStats sender st }) ∧
    ((s.rounds rid).result ≠ Result.Tie →
      (s.rounds rid).totalsRevealed = true ∧
      (claimWinTotal (s.rounds rid) = 0 →
        ∃ st, recordPayout (s.userStats sender) (s.bets rid sender).stake false = .ok st ∧
          s' = { s with bets := upd2 s.bets rid sender ({ s.bets rid sender with claimed := true }), transfers := s.transfers ++ [(sender, (s.bets rid sender).stake)], userStats := upd1 s.userStats sender st }) ∧
      (claimWinTotal (s.rounds rid) ≠ 0 →
        (s.bets rid sender).stake + claimShare (s.rounds rid) (s.bets rid sender).stake < U64 ∧
        s' = { s with claimHandles := upd2 s.claimHandles rid sender (some (if (s.bets rid sender).direction = (if (s.rounds rid).result = Result.Up then 1 else 0) then (s.bets rid sender).stake + claimShare (s.rounds rid) (s.bets rid sender).stake else 0)), bets := upd2 s.bets rid sender ({ s.bets rid sender with claimRequested := true }) })) := by
  simp only [requestClaim] at h
  split at h
  · exact Except.noConfusion h
  rename_i h1
  split at h
  · exact Except.noConfusion h
  rename_i h2
  split at h
  · exact Except.noConfusion h
  rename_i h3
  split at h
  · exact Except.noConfusion h
  rename_i h4
  split at h
  · -- Tie branch
    rename_i htie
    split at h
    · exact Except.noConfusion h
    rename_i st hst
    injection h with h
    refine ⟨by simpa using h1, by simpa using h2, by simpa using h3, by simpa using h4,
            fun _ => ⟨st, hst, h.symm⟩, fun hn => absurd htie hn⟩
  · -- non-Tie branches
    rename_i htie
    split at h
    · exact Except.noConfusion h
    rename_i h5
    split at h
    · -- zero winning total refund
      rename_i hzero
      split at h
      · exact Except.noConfusion h
      rename_i st hst
      injection h with h
      refine ⟨by simpa using h1, by simpa using h2, by simpa using h3, by simpa using h4,
              fun ht => absurd ht htie, fun _ => ⟨by simpa using h5, fun _ => ⟨st, hst, h.symm⟩,
              fun hnz => absurd hzero hnz⟩⟩
    · -- confidential claim request
      rename_i hzero
      split at h
      · exact Except.noConfusion h
      rename_i hov
      injection h with h
      refine ⟨by simpa using h1, by simpa using h2, by simpa using h3, by simpa using h4,
              fun ht => absurd ht htie, fun _ => ⟨by simpa using h5, fun hz => absurd hz hzero,
              fun _ => ⟨by omega, h.symm⟩⟩⟩

/-! ## Failure lemmas: the once-only guards -/

@[simp] theorem succeeds_error {α : Type} (e : String) :
    succeeds (α := α) (.error e) = false := rfl

@[simp] theorem succeeds_ok {α : Type} (a : α) : succeeds (.ok a) = true := rfl

/-- `requestRoundReveal` reverts whenever the reveal flag is already set. -/
theorem requestRoundReveal_fails {s : State} {rid : Nat}
    (h : (s.rounds rid).revealRequested = true) :
    succeeds (requestRoundReveal s rid) = false := by
  simp only [requestRoundReveal]
  split
  · simp
  · simp [h]

/-- `resolveTotalsCallback` reverts whenever the totals are already revealed. -/
theorem resolveTotalsCallback_fails {s : State} {rid u d : Nat}
    (h : (s.rounds rid).totalsRevealed = true) :
    succeeds (resolveTotalsCallback s rid u d) = false := by
  simp only [resolveTotalsCallback]
  split
  · simp
  · simp [h]

/-- `claimCallback` reverts whenever the bet is already claimed. -/
theorem claimCallback_fails {s : State} {sender rid payout : Nat}
    (h : (s.bets rid sender).claimed = true) :
    succeeds (claimCallback s sender rid payout) = false := by
  simp only [claimCallback]
  split
  · simp
  split
  · simp
  split
  · simp
  simp [h]

/-- `requestClaim` reverts whenever the bet is already claimed. -/
theorem requestClaim_fails_claimed {s : State} {sender rid : Nat}
    (h : (s.bets rid sender).claimed = true) :
    succeeds (requestClaim s sender rid) = false := by
  simp only [requestClaim]
  split
  · simp
  split
  · simp
  simp [h]

/-- `placeBet` reverts whenever the caller already has a bet on the round. -/
theorem placeBet_fails {s : State} {now sender rid direction msgValue : Nat}
    (h : (s.bets rid sender).betExists = true) :
    succeeds (placeBet s now sender rid direction msgValue) = false := by
  simp only [placeBet]
  split
  · simp
  split
  · simp
  split
  · simp
  simp [h]

/-! ## Flag monotonicity -/

theorem placeBet_flagsLe {s : State} {now sender rid direction msgValue : Nat} {s' : State}
    (h : placeBet s now sender rid direction msgValue = .ok s') : FlagsLe s s' := by
  obtain ⟨-, -, -, -, st, -, rfl⟩ := placeBet_ok h
  refine ⟨fun r hr => ?_, fun r hr => ?_, fun r a hb => ?_, fun r a hb => ?_, fun r a hb => ?_⟩ <;>
    simp only [upd1_apply, upd2_apply] <;> (try split) <;> simp_all

theorem finalizeRoundFromFeed_flagsLe {s : State} {now : Nat} {feed : Feed} {rid : Nat}
    {s' : State} (h : finalizeRoundFromFeed s now feed rid = .ok s') : FlagsLe s s' := by
  obtain ⟨-, -, -, -, -, -, -, -, rfl⟩ := finalizeRoundFromFeed_ok h
  refine ⟨fun r hr => ?_, fun r hr => ?_, fun r a hb => ?_, fun r a hb => ?_, fun r a hb => ?_⟩ <;>
    simp only [upd1_apply, upd2_apply] <;> (try split) <;> simp_all

theorem requestRoundReveal_flagsLe {s : State} {rid : Nat} {s' : State}
    (h : requestRoundReveal s rid = .ok s') : FlagsLe s s' := by
  obtain ⟨-, -, rfl⟩ := requestRoundReveal_ok h
  refine ⟨fun r hr => ?_, fun r hr => ?_, fun r a hb => ?_, fun r a hb => ?_, fun r a hb => ?_⟩ <;>
    simp only [upd1_apply, upd2_apply] <;> (try split) <;> simp_all

theorem resolveTotalsCallback_flagsLe {s : State} {rid u d : Nat} {s' : State}
    (h : resolveTotalsCallback s rid u d = .ok s') : FlagsLe s s' := by
  obtain ⟨-, -, -, -, hfee, hnofee⟩ := resolveTotalsCallback_ok h
  rcases Decidable.em (winOf (s.rounds rid).result u d > 0 ∧ (s.rounds rid).result ≠ Result.Tie)
    with hc | hc
  · obtain rfl := hfee hc
    refine ⟨fun r hr => ?_, fun r hr => ?_, fun r a hb => ?_, fun r a hb => ?_,
            fun r a hb => ?_⟩ <;>
      simp only [upd1_apply, upd2_apply, setTotalsFee] <;> (try split) <;> simp_all
  · obtain rfl := hnofee hc
    refine ⟨fun r hr => ?_, fun r hr => ?_, fun r a hb => ?_, fun r a hb => ?_,
            fun r a hb => ?_⟩ <;>
      simp only [upd1_apply, upd2_apply, setTotals] <;> (try split) <;> simp_all

theorem requestClaim_flagsLe {s : State} {sender rid : Nat} {s' : State}
    (h : requestClaim s sender rid = .ok s') : FlagsLe s s' := by
  obtain ⟨-, -, -, -, htie, hrest⟩ := requestClaim_ok h
  rcases Decidable.em ((s.rounds rid).result = Result.Tie) with ht | ht
  · obtain ⟨st, -, rfl⟩ := htie ht
    refine ⟨fun r hr => ?_, fun r hr => ?_, fun r a hb => ?_, fun r a hb => ?_,
            fun r a hb => ?_⟩ <;>
      simp only [upd1_apply, upd2_apply] <;> (try split) <;> simp_all
  · obtain ⟨-, hzero, hnz⟩ := hrest ht
    rcases Decidable.em (claimWinTotal (s.rounds rid) = 0) with hz | hz
    · obtain ⟨st, -, rfl⟩ := hzero hz
      refine ⟨fun r hr => ?_, fun r hr => ?_, fun r a hb => ?_, fun r a hb => ?_,
              fun r a hb => ?_⟩ <;>
        simp only [upd1_apply, upd2_apply] <;> (try split) <;> simp_all
    · obtain ⟨-, rfl⟩ := hnz hz
      refine ⟨fun r hr => ?_, fun r hr => ?_, fun r a hb => ?_, fun r a hb => ?_,
              fun r a hb => ?_⟩ <;>
        simp only [upd1_apply, upd2_apply] <;> (try split) <;> simp_all

theorem claimCallback_flagsLe {s : State} {sender rid payout : Nat} {s' : State}
    (h : claimCallback s sender rid payout = .ok s') : FlagsLe s s' := by
  obtain ⟨-, -, -, -, -, -, st, -, rfl⟩ := claimCallback_ok h
  refine ⟨fun r hr => ?_, fun r hr => ?_, fun r a hb => ?_, fun r a hb => ?_, fun r a hb => ?_⟩ <;>
    simp only [upd1_apply, upd2_apply] <;> (try split) <;> simp_all

/-- Every successful transaction preserves the once-only flags. -/
theorem step_flagsLe {s s' : State} (h : Step s s') : FlagsLe s s' := by
  cases h with
  | bet now sender rid dir v h => exact placeBet_flagsLe h
  | fin now feed rid h => exact finalizeRoundFromFeed_flagsLe h
  | upk now feed pd h => exact finalizeRoundFromFeed_flagsLe (performUpkeep_ok h)
  | rev rid h => exact requestRoundReveal_flagsLe h
  | res rid u d h => exact resolveTotalsCallback_flagsLe h
  | claimReq sender rid h => exact requestClaim_flagsLe h
  | claimCb sender rid payout h => exact claimCallback_flagsLe h
  | wdr sender h => obtain ⟨-, -, rfl⟩ := withdrawFees_ok h; exact flagsLe_refl s
  | setFR sender recipient h => obtain ⟨-, rfl⟩ := setFeeRecipient_ok h; exact flagsLe_refl s
  | setFB sender newFeeBps h => obtain ⟨-, -, rfl⟩ := setFeeBps_ok h; exact flagsLe_refl s
  | setMPA sender newMaxPriceAge h =>
      obtain ⟨-, rfl⟩ := setMaxPriceAge_ok h; exact flagsLe_refl s

/-- Any sequence of successful transactions preserves the once-only flags. -/
theorem steps_flagsLe {s s' : State} (h : Steps s s') : FlagsLe s s' := by
  induction h with
  | refl => exact flagsLe_refl s
  | tail _ hstep ih => exact flagsLe_trans ih (step_flagsLe hstep)

/-- A call that `succeeds` returned some `ok` state. -/
theorem succeeds_eq_true {α : Type} {x : Except String α} (h : succeeds x = true) :
    ∃ a, x = .ok a := by
  cases x with
  | ok a => exact ⟨a, rfl⟩
  | error e => simp [succeeds] at h

/-- Elimination for a successful `recordPayout`. -/
theorem recordPayout_ok {stats : UserStats} {payout : Nat} {isWin : Bool} {st : UserStats}
    (h : recordPayout stats payout isWin = .ok st) :
    st = { stats with
           totalPayout := if payout > 0 then stats.totalPayout + payout else stats.totalPayout,
           totalWins := if isWin then stats.totalWins + 1 else stats.totalWins } := by
  simp only [recordPayout] at h
  split at h
  · exact Except.noConfusion h
  split at h
  · exact Except.noConfusion h
  injection h with h
  exact h.symm

/-! ## The claims -/

/-- C3: `finalizeRound(roundId)` (and the internal finalization reached via
`performUpkeep`) succeeds only when the round's `endTime` has passed, only
when `roundId` is exactly one greater than the last finalized round if any
round was finalized before (no backfill, no skip), and only when the price
feed's timestamp is within `maxPriceAge` of now; otherwise it reverts, and a
revert changes no state by construction of the model. -/
theorem claim3_finalize_guards (s : State) (now : Nat) (feed : Feed) (rid : Nat)
    (pd : Option Nat) :
    (succeeds (finalizeRound s now feed rid) = true →
      now ≥ ((initRound s rid).rounds rid).endTime ∧
      (s.lastFinalizedRoundSet = true → rid = s.lastFinalizedRoundId + 1) ∧
      feed.updatedAt ≤ now ∧ now - feed.updatedAt ≤ s.maxPriceAge) ∧
    (succeeds (performUpkeep s now feed pd) = true →
      now ≥ ((initRound s (getCurrentRound now - 1)).rounds (getCurrentRound now - 1)).endTime ∧
      (s.lastFinalizedRoundSet = true → getCurrentRound now - 1 = s.lastFinalizedRoundId + 1) ∧
      feed.updatedAt ≤ now ∧ now - feed.updatedAt ≤ s.maxPriceAge) := by
  constructor
  · intro h
    obtain ⟨s', hs'⟩ := succeeds_eq_true h
    obtain ⟨-, -, h3, h4, -, -, h7, h8, -⟩ := finalizeRoundFromFeed_ok hs'
    exact ⟨h4, h3, h7, h8⟩
  · intro h
    obtain ⟨s', hs'⟩ := succeeds_eq_true h
    obtain ⟨-, -, h3, h4, -, -, h7, h8, -⟩ := finalizeRoundFromFeed_ok (performUpkeep_ok hs')
    exact ⟨h4, h3, h7, h8⟩

/-- Witness for C3: a concrete successful finalization satisfying the
necessary conditions. -/
theorem claim3_finalize_guards_witness :
    succeeds (finalizeRound s0 21600 ⟨100, 21600⟩ 5) = true ∧
    21600 ≥ ((initRound s0 5).rounds 5).endTime ∧
    (s0.lastFinalizedRoundSet = true → 5 = s0.lastFinalizedRoundId + 1) ∧
    (21600 : Nat) - 21600 ≤ s0.maxPriceAge := by
  have h := (claim3_finalize_guards s0 21600 ⟨100, 21600⟩ 5 none).1 (by decide)
  exact ⟨by decide, h.1, h.2.1, h.2.2.2⟩

/-- C4: a successful finalization assigns the result by strict comparison of
the feed's end price with the start price (Up iff greater, Down iff smaller,
Tie iff equal), where the start price used is the stored one when set, else
the carried end price of the prior finalized round (`lastRoundPrice`), else
the current feed price. -/
theorem claim4_result_assignment (s : State) (now : Nat) (feed : Feed) (rid : Nat) (s' : State)
    (h : finalizeRound s now feed rid = .ok s') :
    (s'.rounds rid).startPrice =
      (if (s.rounds rid).startPriceSet = true then (s.rounds rid).startPrice
       else if s.lastRoundPriceSet = true then s.lastRoundPrice else feed.price) ∧
    (s'.rounds rid).endPrice = feed.price ∧
    (s'.rounds rid).result = priceResult (s'.rounds rid).startPrice feed.price ∧
    (feed.price > (s'.rounds rid).startPrice → (s'.rounds rid).result = Result.Up) ∧
    (feed.price < (s'.rounds rid).startPrice → (s'.rounds rid).result = Result.Down) ∧
    (feed.price = (s'.rounds rid).startPrice → (s'.rounds rid).result = Result.Tie) := by
  obtain ⟨-, -, -, -, -, -, -, -, rfl⟩ := finalizeRoundFromFeed_ok h
  refine ⟨by simp [upd1], by simp [upd1], by simp [upd1], ?_, ?_, ?_⟩
  · intro hp
    simp [upd1] at hp ⊢
    simp [priceResult, hp]
  · intro hp
    simp [upd1] at hp ⊢
    simp only [priceResult]
    rw [if_neg (by omega), if_pos hp]
  · intro hp
    simp [upd1] at hp ⊢
    simp only [priceResult]
    rw [if_neg (by omega), if_neg (by omega)]

/-- Witness for C4: a concrete finalization with a rising price yields Up,
start price carried from the prior round's end price. -/
theorem claim4_result_assignment_witness :
    finalizeRound c4s 21600 ⟨100, 21600⟩ 5 = .ok c4s1 ∧
    (c4s1.rounds 5).startPrice = 50 ∧ (c4s1.rounds 5).endPrice = 100 ∧
    (c4s1.rounds 5).result = Result.Up := by
  have h := claim4_result_assignment c4s 21600 ⟨100, 21600⟩ 5 c4s1 rfl
  exact ⟨rfl, by rw [h.1]; decide, h.2.1, h.2.2.2.1 (by rw [h.1]; decide)⟩

/-- C8: when a finalization attempt passes the sequencing guards, a
non-positive feed price fails with the distinct "Invalid price" condition,
and a feed timestamp older than `maxPriceAge` fails with the distinct
"Stale price" condition; a revert changes no state by construction. -/
theorem claim8_price_guards (s : State) (now : Nat) (feed : Feed) (rid : Nat)
    (h1 : getCurrentRound now ≠ 0) (h2 : rid + 1 = getCurrentRound now)
    (h3 : s.lastFinalizedRoundSet = true → rid = s.lastFinalizedRoundId + 1)
    (h4 : now ≥ ((initRound s rid).rounds rid).endTime)
    (h5 : (s.rounds rid).resultSet = false) :
    (feed.price ≤ 0 → finalizeRound s now feed rid = .error "Invalid price") ∧
    (0 < feed.price → feed.updatedAt ≤ now → now - feed.updatedAt > s.maxPriceAge →
      finalizeRound s now feed rid = .error "Stale price") := by
  have hg3 : ¬(s.lastFinalizedRoundSet = true ∧ rid ≠ s.lastFinalizedRoundId + 1) :=
    fun hc => hc.2 (h3 hc.1)
  have hg5 : ¬(((initRound s rid).rounds rid).resultSet = true) := by simp [h5]
  constructor
  · intro hp
    simp only [finalizeRound, finalizeRoundFromFeed]
    rw [if_neg h1, if_neg (fun hh => hh h2), if_neg hg3, if_neg (Nat.not_lt.mpr h4),
        if_neg hg5, if_pos hp]
  · intro hp hu hstale
    simp only [finalizeRound, finalizeRoundFromFeed]
    rw [if_neg h1, if_neg (fun hh => hh h2), if_neg hg3, if_neg (Nat.not_lt.mpr h4),
        if_neg hg5, if_neg (by omega), if_neg (Nat.not_lt.mpr hu),
        if_pos (by rw [initRound_maxPriceAge]; omega)]

/-- Witness for C8: at a concrete state passing the sequencing guards, a zero
price and a stale timestamp produce the two distinct failures. -/
theorem claim8_price_guards_witness :
    finalizeRound s0 21600 ⟨0, 21600⟩ 5 = .error "Invalid price" ∧
    finalizeRound s0 21600 ⟨100, 21000⟩ 5 = .error "Stale price" := by
  constructor
  · exact (claim8_price_guards s0 21600 ⟨0, 21600⟩ 5 (by decide) (by decide) (by decide)
      (by decide) (by decide)).1 (by decide)
  · exact (claim8_price_guards s0 21600 ⟨100, 21000⟩ 5 (by decide) (by decide) (by decide)
      (by decide) (by decide)).2 (by decide) (by decide) (by decide)

/-- C1: for a round whose result is Up or Down with a non-zero winning total
and disclosed totals, a successful `requestClaim` stores, as the plaintext of
the bettor's payout handle, `stake + stake * distributable / winningTotal`
(`Nat` division is floor division) when the confidential direction matches
the result — the winner payout — and `0` otherwise, where
`claimDistributable` is `max(losingTotal − feeAmount, 0)` (the source's
truncating ternary).  The two `uint64` fit hypotheses make the source's
`uint64` cast and checked addition coincide with the exact formula; they hold
automatically for honestly disclosed totals, where the claimant's stake is
part of `winningTotal`. -/
theorem claim1_winner_payout_formula (s : State) (sender rid : Nat) (s' : State)
    (h : requestClaim s sender rid = .ok s')
    (hres : (s.rounds rid).result = Result.Up ∨ (s.rounds rid).result = Result.Down)
    (hwin : claimWinTotal (s.rounds rid) ≠ 0)
    (hshare : (s.bets rid sender).stake * claimDistributable (s.rounds rid)
                / claimWinTotal (s.rounds rid) < U64) :
    s'.claimHandles rid sender =
      some (if (s.bets rid sender).direction
               = (if (s.rounds rid).result = Result.Up then 1 else 0)
            then (s.bets rid sender).stake + (s.bets rid sender).stake
                   * claimDistributable (s.rounds rid) / claimWinTotal (s.rounds rid)
            else 0) := by
  obtain ⟨-, -, -, -, htie, hrest⟩ := requestClaim_ok h
  have hnt : (s.rounds rid).result ≠ Result.Tie := by
    rcases hres with hr | hr <;> simp [hr]
  obtain ⟨-, -, hnz⟩ := hrest hnt
  obtain ⟨-, rfl⟩ := hnz hwin
  have hs : claimShare (s.rounds rid) (s.bets rid sender).stake
      = (s.bets rid sender).stake * claimDistributable (s.rounds rid)
          / claimWinTotal (s.rounds rid) := by
    simp only [claimShare]
    exact Nat.mod_eq_of_lt hshare
  simp [upd2, hs]

/-- Witness for C1: stake 10, totals 30/20, fee 2 ⇒ distributable 18, share
⌊10·18/30⌋ = 6, payout handle plaintext 16. -/
theorem claim1_winner_payout_formula_witness :
    requestClaim c1s 8 3 = .ok c1s1 ∧
    (c1s.rounds 3).result = Result.Up ∧
    claimWinTotal (c1s.rounds 3) = 30 ∧
    claimDistributable (c1s.rounds 3) = 18 ∧
    c1s1.claimHandles 3 8 = some 16 := by
  have h := claim1_winner_payout_formula c1s 8 3 c1s1 rfl (Or.inl (by decide)) (by decide)
    (by decide)
  exact ⟨rfl, by decide, by decide, by decide, h.trans (by decide)⟩

/-- C6: a bettor on a Tie round, or on a round whose winning side has zero
disclosed total, is settled immediately by `requestClaim` with no decryption
round-trip (no payout handle is stored): exactly the stake is transferred
back, the bet is marked claimed, the payout is recorded without incrementing
the win counter; and `resolveTotalsCallback` on a Tie round accrues no fee. -/
theorem claim6_immediate_settlement (s : State) (sender rid : Nat) (s' : State)
    (s2 : State) (rid2 u d : Nat) (s2' : State) :
    (requestClaim s sender rid = .ok s' →
      ((s.rounds rid).result = Result.Tie ∨
        ((s.rounds rid).result ≠ Result.Tie ∧ claimWinTotal (s.rounds rid) = 0)) →
      s'.transfers = s.transfers ++ [(sender, (s.bets rid sender).stake)] ∧
      (s'.bets rid sender).claimed = true ∧
      (s'.userStats sender).totalWins = (s.userStats sender).totalWins ∧
      (s'.userStats sender).totalPayout
        = (s.userStats sender).totalPayout + (s.bets rid sender).stake ∧
      s'.claimHandles = s.claimHandles) ∧
    (resolveTotalsCallback s2 rid2 u d = .ok s2' → (s2.rounds rid2).result = Result.Tie →
      s2'.feeAccrued = s2.feeAccrued ∧
      (s2'.rounds rid2).feeAmount = (s2.rounds rid2).feeAmount) := by
  constructor
  · intro h hcase
    obtain ⟨-, -, -, -, htie, hrest⟩ := requestClaim_ok h
    have hset : ∃ st, recordPayout (s.userStats sender) (s.bets rid sender).stake false = .ok st ∧
        s' = { s with bets := upd2 s.bets rid sender ({ s.bets rid sender with claimed := true }), transfers := s.transfers ++ [(sender, (s.bets rid sender).stake)], userStats := upd1 s.userStats sender st } := by
      rcases hcase with ht | ⟨hnt, hz⟩
      · exact htie ht
      · obtain ⟨-, hzz, -⟩ := hrest hnt
        exact hzz hz
    obtain ⟨st, hst, rfl⟩ := hset
    obtain rfl := recordPayout_ok hst
    refine ⟨rfl, by simp [upd2], by simp [upd1], ?_, rfl⟩
    rcases Nat.eq_zero_or_pos (s.bets rid sender).stake with h0 | h0
    · simp [upd1, h0]
    · simp [upd1, h0]
  · intro h2 htie2
    obtain ⟨-, -, -, -, -, hnofee⟩ := resolveTotalsCallback_ok h2
    obtain rfl := hnofee (fun hc => hc.2 htie2)
    exact ⟨rfl, by simp [upd1, setTotals]⟩

/-- Witness for C6: a tie refund, a zero-winning-total refund, and a fee-free
tie totals disclosure, on concrete states. -/
theorem claim6_immediate_settlement_witness :
    requestClaim c6s 8 4 = .ok c6s1 ∧ (c6s.rounds 4).result = Result.Tie ∧
    c6s1.transfers = [(8, 10)] ∧ (c6s1.bets 4 8).claimed = true ∧
    (c6s1.userStats 8).totalWins = 0 ∧ (c6s1.userStats 8).totalPayout = 10 ∧
    requestClaim c6s 9 6 = .ok c6s2 ∧ claimWinTotal (c6s.rounds 6) = 0 ∧
    c6s2.transfers = [(9, 10)] ∧
    resolveTotalsCallback c6s 4 5 5 = .ok c6s3 ∧ c6s3.feeAccrued = c6s.feeAccrued := by
  have h1 := (claim6_immediate_settlement c6s 8 4 c6s1 c6s 4 5 5 c6s3).1 rfl (Or.inl (by decide))
  have h2 := (claim6_immediate_settlement c6s 9 6 c6s2 c6s 4 5 5 c6s3).1 rfl
    (Or.inr ⟨by decide, by decide⟩)
  have h3 := (claim6_immediate_settlement c6s 8 4 c6s1 c6s 4 5 5 c6s3).2 rfl (by decide)
  exact ⟨rfl, by decide, h1.1.trans (by decide), h1.2.1,
         h1.2.2.1.trans (by decide), h1.2.2.2.1.trans (by decide),
         rfl, by decide, h2.1.trans (by decide), rfl, h3.1⟩

/-- C10: a successful `claimCallback` increments the caller's `totalWins`
exactly when the disclosed payout strictly exceeds the stake (so a winner
whose pro-rata share floors to zero gets no win recorded), and `totalPayout`
grows by the payout — in particular it is unchanged when the payout is 0. -/
theorem claim10_win_accounting (s : State) (sender rid payout : Nat) (s' : State)
    (h : claimCallback s sender rid payout = .ok s') :
    ((s.bets rid sender).stake < payout →
      (s'.userStats sender).totalWins = (s.userStats sender).totalWins + 1) ∧
    (¬(s.bets rid sender).stake < payout →
      (s'.userStats sender).totalWins = (s.userStats sender).totalWins) ∧
    (s'.userStats sender).totalPayout = (s.userStats sender).totalPayout + payout ∧
    (payout = 0 → (s'.userStats sender).totalPayout = (s.userStats sender).totalPayout) := by
  obtain ⟨-, -, -, -, -, -, st, hst, rfl⟩ := claimCallback_ok h
  obtain rfl := recordPayout_ok hst
  refine ⟨?_, ?_, ?_, ?_⟩
  · intro hw
    simp [upd1, hw]
  · intro hw
    simp [upd1, hw]
  · rcases Nat.eq_zero_or_pos payout with h0 | h0
    · simp [upd1, h0]
    · simp [upd1, h0]
  · intro h0
    subst h0
    simp [upd1]

/-- Witness for C10: payout 20 on stake 10 ⇒ win recorded, payout added. -/
theorem claim10_win_accounting_witness :
    claimCallback c7s2 7 5 20 = .ok c7s3 ∧ (c7s2.bets 5 7).stake = 10 ∧
    (c7s3.userStats 7).totalWins = (c7s2.userStats 7).totalWins + 1 ∧
    (c7s3.userStats 7).totalPayout = (c7s2.userStats 7).totalPayout + 20 := by
  have h := claim10_win_accounting c7s2 7 5 20 c7s3 rfl
  exact ⟨rfl, by decide, h.1 (by decide), h.2.2.1⟩

/-- C9: `placeBet` succeeds only when the target round is exactly the current
round plus one (betting on the current round always fails the first guard),
the payment equals the fixed stake, the target round has not yet started, and
the caller has no bet on the round yet; and after a successful bet, any later
`placeBet` by the same caller on the same round reverts (the `betExists` flag
is never cleared), so no address ever holds more than one bet per round. -/
theorem claim9_bet_guards (s : State) (now sender rid direction msgValue : Nat) (s' : State)
    (s2 : State) (h : placeBet s now sender rid direction msgValue = .ok s') :
    rid = getCurrentRound now + 1 ∧
    msgValue = s.stakeAmount ∧
    now < ((initRound s rid).rounds rid).startTime ∧
    (s.bets rid sender).betExists = false ∧
    (Steps s' s2 → ∀ now2 dir2 v2, succeeds (placeBet s2 now2 sender rid dir2 v2) = false) := by
  obtain ⟨h1, h2, h3, h4, st, hst, rfl⟩ := placeBet_ok h
  refine ⟨h1, h2, h3, h4, fun hsteps now2 dir2 v2 => ?_⟩
  apply placeBet_fails
  apply (steps_flagsLe hsteps).2.2.1 rid sender
  simp [upd2]

/-- Witness for C9: a concrete successful bet whose immediate repetition
reverts. -/
theorem claim9_bet_guards_witness :
    placeBet s0 14410 7 5 1 10 = .ok c9s1 ∧
    5 = getCurrentRound 14410 + 1 ∧ (10 : Nat) = s0.stakeAmount ∧
    succeeds (placeBet c9s1 14410 7 5 1 10) = false := by
  have h := claim9_bet_guards s0 14410 7 5 1 10 c9s1 c9s1 rfl
  exact ⟨rfl, h.1, h.2.1, h.2.2.2.2 Relation.ReflTransGen.refl 14410 1 10⟩

/-- C7: per round, `requestRoundReveal` and `resolveTotalsCallback` each
succeed at most once, and per (round, bettor) `claimCallback` succeeds at
most once: after a success, any later attempt — across any sequence of
successful transactions — reverts (reverts change no state by construction
of the model). -/
theorem claim7_at_most_once (s s1 s2 : State) (rid sender u d payout : Nat)
    (hsteps : Steps s1 s2) :
    (requestRoundReveal s rid = .ok s1 → succeeds (requestRoundReveal s2 rid) = false) ∧
    (resolveTotalsCallback s rid u d = .ok s1 →
      ∀ u2 d2, succeeds (resolveTotalsCallback s2 rid u2 d2) = false) ∧
    (claimCallback s sender rid payout = .ok s1 →
      ∀ p2, succeeds (claimCallback s2 sender rid p2) = false) := by
  refine ⟨?_, ?_, ?_⟩
  · intro h
    apply requestRoundReveal_fails
    apply (steps_flagsLe hsteps).1 rid
    obtain ⟨-, -, rfl⟩ := requestRoundReveal_ok h
    simp [upd1]
  · intro h u2 d2
    apply resolveTotalsCallback_fails
    apply (steps_flagsLe hsteps).2.1 rid
    obtain ⟨-, -, -, -, hfee, hnofee⟩ := resolveTotalsCallback_ok h
    rcases Decidable.em (winOf (s.rounds rid).result u d > 0 ∧ (s.rounds rid).result ≠ Result.Tie)
      with hc | hc
    · obtain rfl := hfee hc
      simp [upd1, setTotalsFee]
    · obtain rfl := hnofee hc
      simp [upd1, setTotals]
  · intro h p2
    apply claimCallback_fails
    apply (steps_flagsLe hsteps).2.2.2.2 rid sender
    obtain ⟨-, -, -, -, -, -, st, -, rfl⟩ := claimCallback_ok h
    simp [upd2]

/-- Witness for C7: a concrete reveal/resolve/claim chain in which each
repeated attempt, issued after further successful transactions, reverts. -/
theorem claim7_at_most_once_witness :
    requestRoundReveal c7s 5 = .ok c7s1 ∧
    succeeds (requestRoundReveal c7s3 5) = false ∧
    resolveTotalsCallback c7s1 5 30 40 = .ok c7s2 ∧
    succeeds (resolveTotalsCallback c7s3 5 30 40) = false ∧
    claimCallback c7s2 7 5 20 = .ok c7s3 ∧
    succeeds (claimCallback c7s3 7 5 20) = false := by
  have st1 : Step c7s1 c7s2 := Step.res c7s1 c7s2 5 30 40 rfl
  have st2 : Step c7s2 c7s3 := Step.claimCb c7s2 c7s3 7 5 20 rfl
  have hs13 : Steps c7s1 c7s3 :=
    Relation.ReflTransGen.tail (Relation.ReflTransGen.single st1) st2
  have hs23 : Steps c7s2 c7s3 := Relation.ReflTransGen.single st2
  have hs33 : Steps c7s3 c7s3 := Relation.ReflTransGen.refl
  refine ⟨rfl, ?_, rfl, ?_, rfl, ?_⟩
  · exact (claim7_at_most_once c7s c7s1 c7s3 5 7 30 40 20 hs13).1 rfl
  · exact (claim7_at_most_once c7s1 c7s2 c7s3 5 7 30 40 20 hs23).2.1 rfl 30 40
  · exact (claim7_at_most_once c7s2 c7s3 c7s3 5 7 30 40 20 hs33).2.2 rfl 20

/-- C2, counterexample: with result Up, disclosed winning total 0 and losing
total 10000 at 2000 bps, the claim's fee `feeBps × losingTotal / 10000 = 2000`
is NOT charged: the code sets no fee and accrues nothing when the winning
side is empty. -/
theorem claim2_fee_counterexample :
    resolveTotalsCallback c2s 9 0 10000 = .ok c2s1 ∧
    (c2s.rounds 9).result = Result.Up ∧
    c2s.feeBps * 10000 / 10000 = 2000 ∧
    (c2s1.rounds 9).feeAmount = 0 ∧
    c2s1.feeAccrued = c2s.feeAccrued := by
  exact ⟨rfl, by decide, by decide, by decide, by decide⟩

/-- C2, amended: a successful `resolveTotalsCallback` sets
`feeAmount = ⌊feeBps × losingTotal / 10000⌋` and adds it to the accrued fee
balance when the result is Up or Down AND the disclosed winning total is
non-zero; otherwise (Tie, or an empty winning side) the fee amount and the
accrued balance are unchanged (zero in any reachable state). -/
theorem claim2_fee_amended (s : State) (rid u d : Nat) (s' : State)
    (h : resolveTotalsCallback s rid u d = .ok s')
    (hbps : s.feeBps ≤ 2000) :
    ((winOf (s.rounds rid).result u d ≠ 0 ∧ (s.rounds rid).result ≠ Result.Tie) →
      (s'.rounds rid).feeAmount = loseOf (s.rounds rid).result u d * s.feeBps / 10000 ∧
      s'.feeAccrued = s.feeAccrued + loseOf (s.rounds rid).result u d * s.feeBps / 10000) ∧
    ((winOf (s.rounds rid).result u d = 0 ∨ (s.rounds rid).result = Result.Tie) →
      (s'.rounds rid).feeAmount = (s.rounds rid).feeAmount ∧ s'.feeAccrued = s.feeAccrued) := by
  obtain ⟨-, -, hu, hd, hfee, hnofee⟩ := resolveTotalsCallback_ok h
  have hlose : loseOf (s.rounds rid).result u d < U64 := by
    simp only [loseOf]
    split
    · exact hd
    split
    · exact hu
    · norm_num [U64]
  have hfee_eq : feeOf s.feeBps (loseOf (s.rounds rid).result u d)
      = loseOf (s.rounds rid).result u d * s.feeBps / 10000 := by
    simp only [feeOf]
    apply Nat.mod_eq_of_lt
    calc loseOf (s.rounds rid).result u d * s.feeBps / 10000
        ≤ loseOf (s.rounds rid).result u d * 10000 / 10000 :=
          Nat.div_le_div_right (Nat.mul_le_mul_left _ (by omega))
      _ = loseOf (s.rounds rid).result u d := Nat.mul_div_cancel _ (by norm_num)
      _ < U64 := hlose
  constructor
  · intro hcond
    obtain rfl := hfee ⟨Nat.pos_of_ne_zero hcond.1, hcond.2⟩
    constructor
    · simp [upd1, setTotalsFee, hfee_eq]
    · simp [hfee_eq]
  · intro hcase
    have hnc : ¬(winOf (s.rounds rid).result u d > 0 ∧ (s.rounds rid).result ≠ Result.Tie) := by
      rcases hcase with h0 | ht
      · exact fun hc => absurd h0 (Nat.pos_iff_ne_zero.mp hc.1)
      · exact fun hc => hc.2 ht
    obtain rfl := hnofee hnc
    exact ⟨by simp [upd1, setTotals], rfl⟩

/-- Witness for C2 (amended): totals 30/40, result Up, 200 bps ⇒ fee
`⌊40·200/10000⌋ = 0` charged and accrued. -/
theorem claim2_fee_amended_witness :
    resolveTotalsCallback c7s1 5 30 40 = .ok c7s2 ∧
    c7s1.feeBps ≤ 2000 ∧
    winOf (c7s1.rounds 5).result 30 40 ≠ 0 ∧
    (c7s2.rounds 5).feeAmount = 40 * c7s1.feeBps / 10000 ∧
    c7s2.feeAccrued = c7s1.feeAccrued + 40 * c7s1.feeBps / 10000 := by
  have h := (claim2_fee_amended c7s1 5 30 40 c7s2 rfl (by decide)).1 ⟨by decide, by decide⟩
  exact ⟨rfl, by decide, by decide, h.1.trans (by decide), h.2.trans (by decide)⟩

/-- A round already initialized is left untouched by `initRound`. -/
theorem initRound_of_initialized {s : State} {rid : Nat}
    (h : (s.rounds rid).initialized = true) : initRound s rid = s := by
  simp [initRound, h]

/-- After `initRound` the round is initialized. -/
theorem initRound_initialized (s : State) (rid : Nat) :
    ((initRound s rid).rounds rid).initialized = true := by
  simp only [initRound]
  split
  · rename_i h
    exact h
  · simp [upd1]

/-- `initRound` preserves the accumulator plaintexts of a round that is
initialized or still has zero accumulators. -/
theorem initRound_encTotals {s : State} {rid : Nat}
    (h : (s.rounds rid).initialized = true ∨
         ((s.rounds rid).encTotalUp = 0 ∧ (s.rounds rid).encTotalDown = 0)) :
    ((initRound s rid).rounds rid).encTotalUp = (s.rounds rid).encTotalUp ∧
    ((initRound s rid).rounds rid).encTotalDown = (s.rounds rid).encTotalDown := by
  rcases h with h | ⟨h1, h2⟩
  · rw [initRound_of_initialized h]
    exact ⟨rfl, rfl⟩
  · simp only [initRound]
    split
    · exact ⟨rfl, rfl⟩
    · simp [upd1, h1, h2]

/-- Conservation of the confidential accumulators over a betting trace: when
every direction is 0 or 1 and the grand total fits in `uint64`, the two
accumulators sum exactly to the stakes of the successfully placed bets. -/
theorem runBets_conserves (rid : Nat) :
    ∀ (calls : List BetCall) (s : State),
      (∀ c ∈ calls, c.direction = 0 ∨ c.direction = 1) →
      ((s.rounds rid).initialized = true ∨
        ((s.rounds rid).encTotalUp = 0 ∧ (s.rounds rid).encTotalDown = 0)) →
      (s.rounds rid).encTotalUp + (s.rounds rid).encTotalDown + (runBets s rid calls).2 < U64 →
      ((runBets s rid calls).1.rounds rid).encTotalUp
          + ((runBets s rid calls).1.rounds rid).encTotalDown
        = (s.rounds rid).encTotalUp + (s.rounds rid).encTotalDown + (runBets s rid calls).2 := by
  intro calls
  induction calls with
  | nil =>
    intro s hdir hinit hbound
    simp [runBets]
  | cons c cs ih =>
    intro s hdir hinit hbound
    cases hpb : placeBet s c.now c.sender rid c.direction c.value with
    | error e =>
      have hrw : runBets s rid (c :: cs) = runBets s rid cs := by
        simp [runBets, hpb]
      rw [hrw] at hbound ⊢
      exact ih s (fun c2 hc2 => hdir c2 (List.mem_cons_of_mem _ hc2)) hinit hbound
    | ok s1 =>
      have hrw : runBets s rid (c :: cs)
          = ((runBets s1 rid cs).1, c.value % U64 + (runBets s1 rid cs).2) := by
        simp [runBets, hpb]
      rw [hrw] at hbound ⊢
      obtain ⟨heu, hed⟩ := initRound_encTotals hinit
      obtain ⟨-, -, -, -, st, -, hs1⟩ := placeBet_ok hpb
      have hup1 : (s1.rounds rid).encTotalUp
          = ((s.rounds rid).encTotalUp
              + (if c.direction % U32 = 1 then c.value % U64 else 0)) % U64 := by
        rw [hs1]
        simp [upd1, heu]
      have hdown1 : (s1.rounds rid).encTotalDown
          = ((s.rounds rid).encTotalDown
              + (if c.direction % U32 = 0 then c.value % U64 else 0)) % U64 := by
        rw [hs1]
        simp [upd1, hed]
      have hinit1 : (s1.rounds rid).initialized = true := by
        rw [hs1]
        simp [upd1, initRound_initialized]
      have hdc := hdir c (List.mem_cons_self c cs)
      have hmod32 : c.direction % U32 = c.direction := by
        rcases hdc with hdc | hdc <;> rw [hdc] <;> norm_num [U32]
      rcases hdc with hdc | hdc
      · -- direction 0: the stake goes to the Down accumulator
        have hup1e : (s1.rounds rid).encTotalUp = (s.rounds rid).encTotalUp := by
          rw [hup1, hmod32, hdc, if_neg (by norm_num : ¬(0 : Nat) = 1), Nat.add_zero]
          exact Nat.mod_eq_of_lt (show (s.rounds rid).encTotalUp < U64 by omega)
        have hdown1e : (s1.rounds rid).encTotalDown
            = (s.rounds rid).encTotalDown + c.value % U64 := by
          rw [hdown1, hmod32, hdc, if_pos rfl]
          exact Nat.mod_eq_of_lt
            (show (s.rounds rid).encTotalDown + c.value % U64 < U64 by omega)
        have ihres := ih s1 (fun c2 hc2 => hdir c2 (List.mem_cons_of_mem _ hc2))
          (Or.inl hinit1) (by rw [hup1e, hdown1e]; omega)
        rw [ihres, hup1e, hdown1e]
        omega
      · -- direction 1: the stake goes to the Up accumulator
        have hup1e : (s1.rounds rid).encTotalUp
            = (s.rounds rid).encTotalUp + c.value % U64 := by
          rw [hup1, hmod32, hdc, if_pos rfl]
          exact Nat.mod_eq_of_lt
            (show (s.rounds rid).encTotalUp + c.value % U64 < U64 by omega)
        have hdown1e : (s1.rounds rid).encTotalDown = (s.rounds rid).encTotalDown := by
          rw [hdown1, hmod32, hdc, if_neg (by norm_num : ¬(1 : Nat) = 0), Nat.add_zero]
          exact Nat.mod_eq_of_lt (show (s.rounds rid).encTotalDown < U64 by omega)
        have ihres := ih s1 (fun c2 hc2 => hdir c2 (List.mem_cons_of_mem _ hc2))
          (Or.inl hinit1) (by rw [hup1e, hdown1e]; omega)
        rw [ihres, hup1e, hdown1e]
        omega

/-- C5, counterexample: a bet whose encrypted direction decodes to 2 (neither
0 nor 1) contributes to NEITHER accumulator, so after an honest disclosure of
the accumulator plaintexts the disclosed totals sum to 0 while the stakes
placed on the round sum to 10 — conservation fails as stated. -/
theorem claim5_conservation_counterexample :
    (runBets s0 5 [c5call]).2 = 10 ∧
    (c5s1.bets 5 7).betExists = true ∧ (c5s1.bets 5 7).stake = 10 ∧
    finalizeRound c5s1 21600 ⟨100, 21600⟩ 5 = .ok c5s2 ∧
    requestRoundReveal c5s2 5 = .ok c5s3 ∧
    resolveTotalsCallback c5s3 5 ((c5s3.rounds 5).encTotalUp) ((c5s3.rounds 5).encTotalDown)
      = .ok c5s4 ∧
    (c5s4.rounds 5).totalUp + (c5s4.rounds 5).totalDown = 0 := by
  exact ⟨by decide, by decide, by decide, rfl, rfl, rfl, by decide⟩

/-- C5, amended: provided every bet's encrypted direction decodes to 0 or 1
and the total staked is below `2^64` (the accumulators are 64-bit), the
disclosed `totalUp + totalDown` after an honest `resolveTotalsCallback` (the
oracle returning the true accumulator plaintexts) equals the sum of the
stakes of all bets placed on the round, starting from a round with fresh
(zero) accumulators. -/
theorem claim5_conservation_amended (sa : State) (rid : Nat) (calls : List BetCall)
    (s2 s3 : State)
    (hfresh : (sa.rounds rid).encTotalUp = 0 ∧ (sa.rounds rid).encTotalDown = 0)
    (hdir : ∀ c ∈ calls, c.direction = 0 ∨ c.direction = 1)
    (hbound : (runBets sa rid calls).2 < U64)
    (henc : (s2.rounds rid).encTotalUp = ((runBets sa rid calls).1.rounds rid).encTotalUp ∧
            (s2.rounds rid).encTotalDown = ((runBets sa rid calls).1.rounds rid).encTotalDown)
    (h : resolveTotalsCallback s2 rid (s2.rounds rid).encTotalUp (s2.rounds rid).encTotalDown
           = .ok s3) :
    (s3.rounds rid).totalUp + (s3.rounds rid).totalDown = (runBets sa rid calls).2 := by
  have hrun := runBets_conserves rid calls sa hdir (Or.inr hfresh)
    (by rw [hfresh.1, hfresh.2]; simpa using hbound)
  obtain ⟨-, -, -, -, hfee, hnofee⟩ := resolveTotalsCallback_ok h
  have htot : (s3.rounds rid).totalUp = (s2.rounds rid).encTotalUp ∧
      (s3.rounds rid).totalDown = (s2.rounds rid).encTotalDown := by
    rcases Decidable.em (winOf (s2.rounds rid).result (s2.rounds rid).encTotalUp
        (s2.rounds rid).encTotalDown > 0 ∧ (s2.rounds rid).result ≠ Result.Tie) with hc | hc
    · obtain rfl := hfee hc
      constructor <;> simp [upd1, setTotalsFee]
    · obtain rfl := hnofee hc
      constructor <;> simp [upd1, setTotals]
  rw [htot.1, htot.2, henc.1, henc.2, hrun, hfresh.1, hfresh.2]
  omega

/-- Witness for C5 (amended): one honest Up bet of stake 10, disclosed totals
sum to 10. -/
theorem claim5_conservation_amended_witness :
    (runBets s0 5 [c5wcall]).2 = 10 ∧
    resolveTotalsCallback c5ws3 5 ((c5ws3.rounds 5).encTotalUp) ((c5ws3.rounds 5).encTotalDown)
      = .ok c5ws4 ∧
    (c5ws4.rounds 5).totalUp + (c5ws4.rounds 5).totalDown = 10 := by
  have h := claim5_conservation_amended s0 5 [c5wcall] c5ws3 c5ws4 (by decide)
    (by decide) (by decide) ⟨by decide, by decide⟩ rfl
  exact ⟨by decide, rfl, h.trans (by decide)⟩

end UpDown
